import Mathlib

/-!
Shallow embedding of the pptx-organizer pipeline (src/main.py, with the
src/app.py variant noted where it differs) and proofs about it.

Conventions of the embedding:
- Python strings are sequences of code points; the Python string
  operations used by the code (strip, split, slicing, len) are modelled
  as executable functions on `String.data` (a list of characters), so
  that every definition evaluates inside the kernel.
- A pdfplumber cell is `Option String` (a cell may be `None`);
  a table is a list of rows, a page a list of tables, a document a list
  of pages, exactly the shape `pdfplumber` hands to
  `extract_categories_from_pdf`.
- Fallible external calls (`json.loads` of the oracle response) are
  modelled as `Option`-valued inputs: `none` is the unparseable case the
  code catches with `except`.
- The slide list of a presentation is `List Slide`; the XML-level
  rewrite `xml_slides.append(original_slides[idx])` is an lxml append,
  which MOVES an element that is already in the list to the last
  position (an lxml element has at most one parent); `slideMove` models
  exactly that.
-/

namespace PptxOrganizer

/-! ## Python string primitives (code-point semantics) -/

/-- Characters stripped by Python `str.strip()` with no argument
(ASCII whitespace; the inputs in this development contain no other
Unicode whitespace). -/
def isPyWhitespace (c : Char) : Bool :=
  c = ' ' || c = '\t' || c = '\n' || c = '\r' || c = '\x0b' || c = '\x0c'

/-- Python `s.strip()`. -/
def pyStrip (s : String) : String :=
  ⟨((s.data.dropWhile isPyWhitespace).reverse.dropWhile isPyWhitespace).reverse⟩

/-- Python `s.split('\n')[0]`: everything before the first newline. -/
def pyFirstLine (s : String) : String :=
  ⟨s.data.takeWhile (fun c => c ≠ '\n')⟩

/-- Python `s.split('\n')[0].strip()`, the combination used by the code. -/
def pyFirstLineStripped (s : String) : String :=
  pyStrip (pyFirstLine s)

/-- Python `s[:n]`. -/
def pyTake (s : String) (n : Nat) : String :=
  ⟨s.data.take n⟩

/-- Python `re.match(r'^\d+', s)` succeeds: the string begins with a digit. -/
def startsWithDigit (s : String) : Bool :=
  match s.data with
  | [] => false
  | c :: _ => c.isDigit

/-- Python `int(re.match(r'^(\d+)', s).group(1))`: value of the leading
digit run. -/
def leadingNat (s : String) : Nat :=
  (s.data.takeWhile Char.isDigit).foldl (fun n c => n * 10 + (c.toNat - 48)) 0

/-- Python `re.match(r'^\d+$', s)` succeeds: non-empty and all digits. -/
def isBareNat (s : String) : Bool :=
  (!s.data.isEmpty) && s.data.all Char.isDigit

/-- Python `f"{n}"` for a natural number. -/
def natToStr (n : Nat) : String := toString n

/-! ## Taxonomy data model and tabular extraction
(src/main.py `extract_categories_from_pdf`, lines 81-171) -/

/-- A hierarchical category extracted from the criteria table:
`{'No': int, 'MainCategory': str, 'SubItems': List[str]}`. -/
structure Category where
  no : Nat
  mainCategory : String
  subItems : List String
deriving DecidableEq, Repr

instance : Inhabited Category := ⟨⟨0, "", []⟩⟩

/-- A pdfplumber cell: `None` or a string. -/
abbrev Cell := Option String

/-- A table row. -/
abbrev Row := List Cell

/-- A table of a page. -/
abbrev Table := List Row

/-- The tables of one page. -/
abbrev PdfPage := List Table

/-- The pages of the document. -/
abbrev PdfDoc := List PdfPage

/-- Python `str(cell).strip() if cell else ""`. -/
def cellStr : Cell → String
  | none => ""
  | some s => pyStrip s

/-- Parser state: the accumulated categories and the in-progress one
(`categories`, `current_category` in the source). -/
abbrev PdfState := List Category × Option Category

/-- One iteration of the row loop of `extract_categories_from_pdf`
(main.py lines 107-144).  A main-item row (first cell starts with a
digit, second cell non-empty) flushes the current category and starts a
new one; independently, if the row has at least 4 cells and a category
is in progress, a bare-integer third cell with a non-empty fourth cell
appends a sub-item (first line, stripped, first 100 characters,
deduplicated). -/
def rowStep (st : PdfState) (row : Row) : PdfState :=
  if row.length < 2 then st
  else
    let col0 := cellStr (row.getD 0 none)
    let col1 := cellStr (row.getD 1 none)
    let st1 :=
      if col0 ≠ "" ∧ startsWithDigit col0 = true ∧ col1 ≠ "" then
        (st.1 ++ (match st.2 with | some c => [c] | none => []),
         some ⟨leadingNat col0, pyFirstLineStripped col1, []⟩)
      else st
    if 4 ≤ row.length then
      match st1.2 with
      | some cur =>
        let col2 := cellStr (row.getD 2 none)
        let col3 := cellStr (row.getD 3 none)
        if col2 ≠ "" ∧ isBareNat col2 = true ∧ col3 ≠ "" then
          let subItem := pyTake (pyFirstLineStripped col3) 100
          if subItem ≠ "" ∧ subItem ∉ cur.subItems then
            (st1.1, some ⟨cur.no, cur.mainCategory, cur.subItems ++ [subItem]⟩)
          else st1
        else st1
      | none => st1
    else st1

/-- One iteration of the table loop: a table with fewer than 2 rows is
skipped entirely (`if not table or len(table) < 2: continue`,
main.py lines 104-105). -/
def tableStep (st : PdfState) (table : Table) : PdfState :=
  if table.length < 2 then st else table.foldl rowStep st

/-- One iteration of the page loop.  After all tables of the page, the
in-progress category is flushed (`if current_category and
current_category not in categories`, main.py lines 147-149); note the
flush sits at page level, after the table loop. -/
def pageStep (st : PdfState) (page : PdfPage) : PdfState :=
  let st1 := page.foldl tableStep st
  match st1.2 with
  | some cur => if cur ∉ st1.1 then (st1.1 ++ [cur], none) else st1
  | none => st1

/-- Final dedup by `No`, first occurrence wins (`seen_nos` loop,
main.py lines 156-161), written with the seen set explicit. -/
def dedupByNoAux : List Nat → List Category → List Category
  | _, [] => []
  | seen, c :: rest =>
    if c.no ∈ seen then dedupByNoAux seen rest
    else c :: dedupByNoAux (c.no :: seen) rest

/-- Entry point of the dedup pass. -/
def dedupByNo (cats : List Category) : List Category := dedupByNoAux [] cats

/-- Python `list.sort(key=lambda x: x['No'])` is a stable sort by the
key; a stable sort for a total key order is modelled by insertion sort,
which computes the identical result. -/
def sortCatsByNo (cats : List Category) : List Category :=
  List.insertionSort (fun a b => a.no ≤ b.no) cats

/-- The whole of `extract_categories_from_pdf`: run the page loop from
the empty state, drop any never-flushed in-progress category, dedup by
`No` (first wins) and sort ascending by `No`. -/
def extractCategoriesFromPdf (doc : PdfDoc) : List Category :=
  sortCatsByNo (dedupByNo (doc.foldl pageStep ([], none)).1)

/-! ## Oracle-delegated extraction
(src/main.py `extract_categories_with_ai`, lines 207-257) -/

/-- A flat `{No, Category}` record as returned by the extraction oracle. -/
structure AICat where
  no : Nat
  category : String
deriving DecidableEq, Repr

/-- The parse-and-sort tail of `extract_categories_with_ai`: the
oracle response after fence stripping is fed to `json.loads`, modelled
as an `Option`-valued input (`none` is the exception path, which
returns `[]`); a successful parse is sorted by `No` (stable sort,
modelled by insertion sort) with no deduplication. -/
def extractCategoriesWithAI (parsed : Option (List AICat)) : List AICat :=
  match parsed with
  | none => []
  | some cats => List.insertionSort (fun a b => a.no ≤ b.no) cats

/-! ## Slides and grouping (src/main.py `process_pptx`, lines 559-591) -/

/-- A slide: the text of its title placeholder if it has one
(`slide.shapes.title`), and the texts of its text-frame shapes in
order. -/
structure Slide where
  titleShape : Option String
  bodyTexts : List String
deriving DecidableEq, Repr

instance : Inhabited Slide := ⟨⟨none, []⟩⟩

/-- main.py `get_slide_title` (lines 279-283). -/
def getSlideTitle (s : Slide) : String :=
  match s.titleShape with
  | some t => pyStrip t
  | none => ""

/-- main.py `get_slide_first_text` (lines 286-293): the first non-empty
stripped shape text. -/
def getSlideFirstText (s : Slide) : String :=
  ((s.bodyTexts.map pyStrip).find? (fun t => t ≠ "")).getD ""

/-- main.py `get_slide_full_content` (lines 296-306): stripped shape
texts longer than 2 characters, joined with newlines, first 500
characters. -/
def getSlideFullContent (s : Slide) : String :=
  pyTake (String.intercalate "\n"
    ((s.bodyTexts.map pyStrip).filter (fun t => 2 < t.length))) 500

/-- A slide group as built by `process_pptx`:
`{'title', 'slides', 'first_index', 'content'}`. -/
structure Group where
  title : String
  slides : List Nat
  firstIndex : Nat
  content : String
deriving DecidableEq, Repr

instance : Inhabited Group := ⟨⟨"", [], 0, ""⟩⟩

/-- The fixed anchor prefix: cover and table of contents
(`FIXED_SLIDES = 2`). -/
def FIXED_SLIDES : Nat := 2

/-- One iteration of the grouping loop of `process_pptx`
(main.py lines 562-588) on the pair (index, slide): a titled slide
flushes the open group and opens a new one; an untitled slide joins the
open group (accumulating content, capped at 500 characters) or opens a
synthesized group when none is open. -/
def groupStep (st : List Group × Option Group) (p : Nat × Slide) :
    List Group × Option Group :=
  let idx := p.1
  let title := getSlideTitle p.2
  let content := getSlideFullContent p.2
  if title ≠ "" then
    (st.1 ++ (match st.2 with | some g => [g] | none => []),
     some ⟨title, [idx], idx, content⟩)
  else
    match st.2 with
    | some g =>
      (st.1, some ⟨g.title, g.slides ++ [idx], g.firstIndex,
                   pyTake (g.content ++ "\n" ++ content) 500⟩)
    | none =>
      let firstText := getSlideFirstText p.2
      (st.1,
       some ⟨if firstText ≠ "" then pyTake firstText 50
             else "[Untitled " ++ natToStr idx ++ "]",
             [idx], idx, content⟩)

/-- The final `if current_group: groups.append(current_group)` of the
grouping loop. -/
def closeGroups (st : List Group × Option Group) : List Group :=
  st.1 ++ (match st.2 with | some g => [g] | none => [])

/-- The grouping pass: slides from index `FIXED_SLIDES` on, final open
group flushed at end of scan. -/
def getGroups (deck : List Slide) : List Group :=
  closeGroups
    ((List.enumFrom FIXED_SLIDES (deck.drop FIXED_SLIDES)).foldl
      groupStep ([], none))

/-! ## Oracle matching (src/main.py `create_matching_with_ai`,
lines 345-439) -/

/-- Python dict assignment `mapping[k] = v`: overwrite in place if the
key is present, append otherwise. -/
def insertAssoc (m : List (Nat × Nat)) (k v : Nat) : List (Nat × Nat) :=
  if m.any (fun q => q.1 = k) then
    m.map (fun q => if q.1 = k then (k, v) else q)
  else m ++ [(k, v)]

/-- The validation tail of `create_matching_with_ai` (main.py lines
420-439): the oracle response after fence stripping is fed to
`json.loads`, modelled as an `Option`-valued input (`none` is the
`JSONDecodeError` path, which returns `{}`); on success every entry
with a non-negative value is kept (`if pptx_idx >= 0`), negative ones
are dropped. -/
def createMatchingWithAI (parsed : Option (List (Nat × Int))) :
    List (Nat × Nat) :=
  match parsed with
  | none => []
  | some raw =>
    raw.foldl (fun m p => if 0 ≤ p.2 then insertAssoc m p.1 p.2.toNat else m) []

/-- Python `mapping[k]` / `k in mapping` on the association list. -/
def lookupMapping (m : List (Nat × Nat)) (k : Nat) : Option Nat :=
  (m.find? (fun q => q.1 = k)).map (fun q => q.2)

/-! ## Reorder engine (src/main.py `process_pptx`, lines 611-683) -/

/-- Python `set.add`. -/
def insertSet (s : List Nat) (i : Nat) : List Nat :=
  if i ∈ s then s else s ++ [i]

/-- One iteration of the matching loop (main.py lines 614-626): a
category whose `No` is in the mapping with a group index below
`len(groups)` appends `(No, MainCategory, group)` to `matched_list` and
records the index in `used_groups`. -/
def matchFold (mapping : List (Nat × Nat)) (groups : List Group)
    (acc : List (Nat × String × Group) × List Nat) (cat : Category) :
    List (Nat × String × Group) × List Nat :=
  match lookupMapping mapping cat.no with
  | some i =>
    if i < groups.length then
      (acc.1 ++ [(cat.no, cat.mainCategory, groups.getD i default)],
       insertSet acc.2 i)
    else acc
  | none => acc

/-- `matched_list` and `used_groups` after the matching loop. -/
def buildMatched (cats : List Category) (mapping : List (Nat × Nat))
    (groups : List Group) : List (Nat × String × Group) × List Nat :=
  cats.foldl (matchFold mapping groups) ([], [])

/-- `matched_list.sort(key=lambda x: x[0])`: stable sort by the
category number, modelled by insertion sort. -/
def sortMatched (l : List (Nat × String × Group)) :
    List (Nat × String × Group) :=
  List.insertionSort (fun a b => a.1 ≤ b.1) l

/-- `unused_groups = [g for i, g in enumerate(groups) if i not in
used_groups]` (main.py line 629). -/
def unusedGroupsOf (groups : List Group) (used : List Nat) : List Group :=
  (groups.enum.filter (fun p => p.1 ∉ used)).map Prod.snd

/-- main.py `update_slide_title` (lines 525-533): succeeds only when
the slide has a title placeholder; otherwise the slide is returned
unmodified with `False`. -/
def updateSlideTitle (s : Slide) (newTitle : String) : Slide × Bool :=
  match s.titleShape with
  | some _ => (⟨some newTitle, s.bodyTexts⟩, true)
  | none => (s, false)

/-- The title-update pass of the placement loop (main.py lines
641-646): for each matched entry, in ascending `No` order, the slide at
the first index of its group gets the title `"<No>. <MainCategory>"`. -/
def applyTitleUpdates (deck : List Slide)
    (matched : List (Nat × String × Group)) : List Slide :=
  matched.foldl
    (fun d m =>
      d.set (m.2.2.slides.headD 0)
        (updateSlideTitle (d.getD (m.2.2.slides.headD 0) default)
          (natToStr m.1 ++ ". " ++ m.2.1)).1)
    deck

/-- The content part of `new_order`: the slides of the matched groups
in ascending `No` order, then the slides of the unused groups
(main.py lines 641-657). -/
def contentOrderOf (deck : List Slide) (cats : List Category)
    (mapping : List (Nat × Nat)) : List Nat :=
  let groups := getGroups deck
  let mu := buildMatched cats mapping groups
  ((sortMatched mu.1).map (fun m => m.2.2.slides)).flatten ++
    ((unusedGroupsOf groups mu.2).map Group.slides).flatten

/-- `new_order` (main.py lines 637-657): the anchor indices followed by
the content part. -/
def newOrderOf (deck : List Slide) (cats : List Category)
    (mapping : List (Nat × Nat)) : List Nat :=
  List.range FIXED_SLIDES ++ contentOrderOf deck cats mapping

/-- One `xml_slides.append(original_slides[idx])` (main.py line 668):
lxml moves an element that is already in the list to the last position
(an element has at most one parent), otherwise appends it. -/
def slideMove (l : List Nat) (i : Nat) : List Nat :=
  l.filter (fun j => j ≠ i) ++ [i]

/-- The XML-level rewrite (main.py lines 661-668): remove every slide
id, then append `original_slides[idx]` for each `idx` of `new_order`. -/
def applySlideOrder (order : List Nat) : List Nat :=
  order.foldl slideMove []

/-- The observable outcome of `process_pptx`: the final sequence of
original slide indices, the slides (with updated titles) at their
original positions, and the summary counts. -/
structure ProcessResult where
  order : List Nat
  deck : List Slide
  matchedCount : Nat
  unusedCount : Nat
deriving DecidableEq, Repr

/-- The body of `process_pptx` after its early returns. -/
def reorderCore (deck : List Slide) (cats : List Category)
    (mapping : List (Nat × Nat)) : ProcessResult :=
  let groups := getGroups deck
  let mu := buildMatched cats mapping groups
  ⟨applySlideOrder (newOrderOf deck cats mapping),
   applyTitleUpdates deck (sortMatched mu.1),
   mu.1.length,
   (unusedGroupsOf groups mu.2).length⟩

/-- main.py `process_pptx` (lines 536-683): `none` is an early return
with no output file, for a deck of at most `FIXED_SLIDES` slides
(lines 547-549) or an empty mapping (lines 601-603). -/
def processPptx (deck : List Slide) (cats : List Category)
    (mapping : List (Nat × Nat)) : Option ProcessResult :=
  if deck.length ≤ FIXED_SLIDES then none
  else if mapping = [] then none
  else some (reorderCore deck cats mapping)

/-! ## Table-of-contents update (src/main.py `populate_toc`,
lines 445-522) -/

/-- A shape of the TOC slide: whether it has a text frame, its width
and height (EMU), and the text of its frame. -/
structure TocShape where
  hasTextFrame : Bool
  width : Nat
  height : Nat
  text : String
deriving DecidableEq, Repr

/-- Python `shape.width * shape.height`. -/
def shapeArea (s : TocShape) : Nat := s.width * s.height

/-- One iteration of the target-selection loop (main.py lines 462-469):
a text-frame shape whose stripped text is longer than 10 characters and
whose area strictly exceeds the running maximum becomes the target. -/
def tocStep (acc : Option Nat × Nat) (p : Nat × TocShape) :
    Option Nat × Nat :=
  if p.2.hasTextFrame then
    if 10 < (pyStrip p.2.text).length ∧ acc.2 < shapeArea p.2 then
      (some p.1, shapeArea p.2)
    else acc
  else acc

/-- The target-selection loop over the shapes of the TOC slide,
returning the index of the selected shape (if any) and the final
maximum area. -/
def selectTocTarget (shapes : List TocShape) : Option Nat × Nat :=
  shapes.enum.foldl tocStep (none, 0)

/-- The selection condition of main.py line 467, as a predicate on one
shape (has a text frame, stripped text longer than 10 characters). -/
def eligibleShape (s : TocShape) : Bool :=
  s.hasTextFrame && decide (10 < (pyStrip s.text).length)

/-- The paragraph texts written into the selected frame (main.py lines
480-513): per category the line `"<No>. <MainCategory>"` followed by at
most 3 sub-item lines, each indented with a middle dot and truncated to
40 characters. -/
def tocLines (cats : List Category) : List String :=
  (cats.map (fun c =>
    (natToStr c.no ++ ". " ++ c.mainCategory) ::
      (c.subItems.take 3).map (fun sub => "  ・ " ++ pyTake sub 40))).flatten

/-- main.py `populate_toc`: select the target frame; when none exists
the update is skipped (`return False`, non-fatal, main.py lines
471-473), otherwise the frame is cleared and the TOC paragraphs are
written into it. -/
def populateToc (shapes : List TocShape) (cats : List Category) :
    Option (Nat × List String) :=
  match (selectTocTarget shapes).1 with
  | some i => some (i, tocLines cats)
  | none => none

/-- Modelled from the spec: the eligibility guard as the specification
words it, namely that the existing text of the frame is not only
digits/whitespace.  Stated only to compare the specification against
the selection condition actually implemented (text longer than 10
characters). -/
def specTextEligible (s : String) : Bool :=
  !((pyStrip s).data.all (fun c => c.isDigit || isPyWhitespace c))

/-! ## Concrete inputs used by the scenarios -/

/-- Scenario A input: one page, one table, rows
`["1","Intro"], ["1","1","Scope"], ["2","Overview"]`. -/
def docC2 : PdfDoc :=
  [[[[some "1", some "Intro"],
     [some "1", some "1", some "Scope"],
     [some "2", some "Overview"]]]]

/-- A 2-row table whose first row is the main-item row `["1","Intro"]`
(the second row is noise that every branch ignores). -/
def tMainIntro : Table := [[some "1", some "Intro"], [some "x", none]]

/-- A 2-row table whose first row is the sub-item row
`[None, None, "1", "Scope"]` (the second row is ignored noise). -/
def tSubScope : Table := [[none, none, some "1", some "Scope"], [some "x", none]]

/-- The main-item table and the sub-item table on the same page. -/
def docSamePage : PdfDoc := [[tMainIntro, tSubScope]]

/-- The main-item table and the sub-item table on different pages. -/
def docLaterPage : PdfDoc := [[tMainIntro], [tSubScope]]

/-- A document whose only table has a single (well-formed main-item)
row. -/
def docSingleRowTable : PdfDoc := [[[[some "1", some "Intro"]]]]

/-- A document with a well-formed 2-row main-item table followed, on
the same page, by a single-row table holding a well-formed sub-item
row. -/
def docSingleRowSubTable : PdfDoc :=
  [[tMainIntro, [[none, none, some "1", some "Scope"]]]]

/-- A 4-slide deck: cover, table of contents, and two titled content
slides (hence two single-slide groups). -/
def deckFour : List Slide :=
  [⟨some "Cover", ["Proposal cover page"]⟩,
   ⟨some "Table of Contents", []⟩,
   ⟨some "Features", ["Feature details body"]⟩,
   ⟨some "Summary", ["Summary body text"]⟩]

/-- Two categories, numbers 1 and 2. -/
def catsTwo : List Category := [⟨1, "Intro", []⟩, ⟨2, "Overview", []⟩]

/-- The expected deck after Scenario C retitles the first slide of
group 0 to `"1. Intro"`. -/
def deckFourTitled : List Slide :=
  [⟨some "Cover", ["Proposal cover page"]⟩,
   ⟨some "Table of Contents", []⟩,
   ⟨some "1. Intro", ["Feature details body"]⟩,
   ⟨some "Summary", ["Summary body text"]⟩]

/-- The slide indices emitted by a grouping state: those of the closed
groups followed by those of the open group (proof-support view of the
grouping loop). -/
def emittedSlides (st : List Group × Option Group) : List Nat :=
  (st.1.map Group.slides).flatten ++
    (match st.2 with | some g => g.slides | none => [])

/-! ## General lemmas about the grouping pass -/

theorem emittedSlides_groupStep (st : List Group × Option Group)
    (p : Nat × Slide) :
    emittedSlides (groupStep st p) = emittedSlides st ++ [p.1] := by
  rcases st with ⟨gs, cur⟩
  by_cases h : getSlideTitle p.2 ≠ ""
  · cases cur <;> simp [groupStep, emittedSlides, h]
  · cases cur <;> simp [groupStep, emittedSlides, h]

theorem emittedSlides_foldl (L : List (Nat × Slide)) :
    ∀ st, emittedSlides (L.foldl groupStep st) =
      emittedSlides st ++ L.map Prod.fst := by
  induction L with
  | nil => intro st; simp
  | cons p L ih =>
    intro st
    rw [List.foldl_cons, ih, emittedSlides_groupStep]
    simp

theorem closeGroups_flatten (st : List Group × Option Group) :
    ((closeGroups st).map Group.slides).flatten = emittedSlides st := by
  rcases st with ⟨gs, cur⟩
  cases cur <;> simp [closeGroups, emittedSlides]

theorem getGroups_flatten (deck : List Slide) :
    ((getGroups deck).map Group.slides).flatten =
      List.range' FIXED_SLIDES (deck.length - FIXED_SLIDES) := by
  unfold getGroups
  rw [closeGroups_flatten, emittedSlides_foldl, List.enumFrom_map_fst,
    List.length_drop]
  simp [emittedSlides]

/-! ## General lemmas about the XML-level slide rewrite -/

theorem filter_ne_eq_self {l : List Nat} {a : Nat} (h : a ∉ l) :
    l.filter (fun j => j ≠ a) = l :=
  List.filter_eq_self.mpr (fun x hx => by
    have hne : x ≠ a := fun he => h (he ▸ hx)
    simp [hne])

theorem slideMove_of_not_mem {l : List Nat} {a : Nat} (h : a ∉ l) :
    slideMove l a = l ++ [a] := by
  unfold slideMove
  rw [filter_ne_eq_self h]

theorem mem_slideMove {l : List Nat} {i x : Nat} :
    x ∈ slideMove l i ↔ x ∈ l ∨ x = i := by
  unfold slideMove
  by_cases h : x = i <;> simp [h, List.mem_filter]

theorem nodup_slideMove {l : List Nat} (i : Nat) (h : l.Nodup) :
    (slideMove l i).Nodup := by
  unfold slideMove
  rw [List.nodup_append]
  refine ⟨h.filter _, List.nodup_singleton i, ?_⟩
  intro x hx hxi
  rw [List.mem_filter] at hx
  rw [List.mem_singleton] at hxi
  simp [hxi] at hx

theorem mem_foldl_slideMove (L : List Nat) :
    ∀ (init : List Nat) (x : Nat),
      x ∈ L.foldl slideMove init ↔ x ∈ init ∨ x ∈ L := by
  induction L with
  | nil => intro init x; simp
  | cons a L ih =>
    intro init x
    rw [List.foldl_cons, ih, mem_slideMove]
    simp [List.mem_cons]
    tauto

theorem nodup_foldl_slideMove (L : List Nat) :
    ∀ init, init.Nodup → (L.foldl slideMove init).Nodup := by
  induction L with
  | nil => intro init h; exact h
  | cons a L ih =>
    intro init h
    exact ih _ (nodup_slideMove a h)

theorem foldl_slideMove_front (L : List Nat) :
    ∀ (front acc : List Nat), (∀ x ∈ L, x ∉ front) →
      L.foldl slideMove (front ++ acc) = front ++ L.foldl slideMove acc := by
  induction L with
  | nil => intro front acc _; simp
  | cons a L ih =>
    intro front acc h
    have ha : a ∉ front := fun hmem => h a (List.mem_cons_self a L) hmem
    have hm : slideMove (front ++ acc) a = front ++ slideMove acc a := by
      unfold slideMove
      rw [List.filter_append, filter_ne_eq_self ha, List.append_assoc]
    rw [List.foldl_cons, List.foldl_cons, hm]
    exact ih front (slideMove acc a) (fun x hx => h x (List.mem_cons_of_mem a hx))

theorem foldl_slideMove_of_nodup (L : List Nat) :
    ∀ acc, (acc ++ L).Nodup → L.foldl slideMove acc = acc ++ L := by
  induction L with
  | nil => intro acc _; simp
  | cons a L ih =>
    intro acc h
    have ha : a ∉ acc := by
      intro hmem
      rw [List.nodup_append] at h
      exact h.2.2 hmem (List.mem_cons_self a L)
    rw [List.foldl_cons, slideMove_of_not_mem ha]
    have h2 : ((acc ++ [a]) ++ L).Nodup := by
      rw [List.append_assoc, List.singleton_append]
      exact h
    rw [ih (acc ++ [a]) h2, List.append_assoc, List.singleton_append]

theorem applySlideOrder_anchors (k : Nat) (rest : List Nat)
    (h : ∀ x ∈ rest, x ∉ List.range k) :
    applySlideOrder (List.range k ++ rest) =
      List.range k ++ applySlideOrder rest := by
  unfold applySlideOrder
  rw [List.foldl_append]
  have h1 : (List.range k).foldl slideMove [] = List.range k := by
    have h2 := foldl_slideMove_of_nodup (List.range k) []
    simpa using h2 (by simpa using List.nodup_range k)
  rw [h1]
  have h3 := foldl_slideMove_front rest (List.range k) [] h
  simpa using h3

/-! ## General lemmas about the matching loop -/

theorem mem_insertSet {s : List Nat} {i x : Nat} :
    x ∈ insertSet s i ↔ x ∈ s ∨ x = i := by
  unfold insertSet
  by_cases h : i ∈ s
  · rw [if_pos h]
    constructor
    · exact fun hx => Or.inl hx
    · rintro (hx | rfl)
      · exact hx
      · exact h
  · rw [if_neg h]
    simp [List.mem_append]

theorem buildMatchedAux_inv (mapping : List (Nat × Nat))
    (groups : List Group) (cats : List Category) :
    ∀ acc : List (Nat × String × Group) × List Nat,
      (∀ e ∈ acc.1, ∃ i, i < groups.length ∧ e.2.2 = groups.getD i default) →
      (∀ i ∈ acc.2, ∃ e ∈ acc.1, e.2.2 = groups.getD i default) →
      (∀ e ∈ (cats.foldl (matchFold mapping groups) acc).1,
          ∃ i, i < groups.length ∧ e.2.2 = groups.getD i default) ∧
      (∀ i ∈ (cats.foldl (matchFold mapping groups) acc).2,
          ∃ e ∈ (cats.foldl (matchFold mapping groups) acc).1,
            e.2.2 = groups.getD i default) := by
  induction cats with
  | nil => intro acc h1 h2; exact ⟨h1, h2⟩
  | cons cat cats ih =>
    intro acc h1 h2
    rw [List.foldl_cons]
    apply ih
    · intro e he
      cases hlk : lookupMapping mapping cat.no with
      | none =>
        simp only [matchFold, hlk] at he
        exact h1 e he
      | some i =>
        simp only [matchFold, hlk] at he
        by_cases hi : i < groups.length
        · rw [if_pos hi] at he
          rcases List.mem_append.mp he with hmem | hmem
          · exact h1 e hmem
          · rw [List.mem_singleton] at hmem
            exact ⟨i, hi, by rw [hmem]⟩
        · rw [if_neg hi] at he
          exact h1 e he
    · intro j hj
      cases hlk : lookupMapping mapping cat.no with
      | none =>
        simp only [matchFold, hlk] at hj ⊢
        exact h2 j hj
      | some i =>
        simp only [matchFold, hlk] at hj ⊢
        by_cases hi : i < groups.length
        · rw [if_pos hi] at hj ⊢
          rcases mem_insertSet.mp hj with hjo | rfl
          · obtain ⟨e, he, hee⟩ := h2 j hjo
            exact ⟨e, List.mem_append_left _ he, hee⟩
          · exact ⟨(cat.no, cat.mainCategory, groups.getD j default),
              List.mem_append_right _ (List.mem_singleton_self _), rfl⟩
        · rw [if_neg hi] at hj ⊢
          exact h2 j hj

theorem buildMatched_entries (cats : List Category)
    (mapping : List (Nat × Nat)) (groups : List Group) :
    ∀ e ∈ (buildMatched cats mapping groups).1,
      ∃ i, i < groups.length ∧ e.2.2 = groups.getD i default :=
  (buildMatchedAux_inv mapping groups cats ([], [])
    (by simp) (by simp)).1

theorem buildMatched_used (cats : List Category)
    (mapping : List (Nat × Nat)) (groups : List Group) :
    ∀ i ∈ (buildMatched cats mapping groups).2,
      ∃ e ∈ (buildMatched cats mapping groups).1,
        e.2.2 = groups.getD i default :=
  (buildMatchedAux_inv mapping groups cats ([], [])
    (by simp) (by simp)).2

/-! ## General lemmas about index enumeration -/

theorem get_mem_enumFrom {α : Type _} :
    ∀ (l : List α) (n i : Nat) (h : i < l.length),
      (n + i, l.get ⟨i, h⟩) ∈ List.enumFrom n l := by
  intro l
  induction l with
  | nil => intro n i h; simp at h
  | cons a l ih =>
    intro n i h
    cases i with
    | zero => simp [List.enumFrom]
    | succ i =>
      have hi : i < l.length := by simpa using h
      have hmem := ih (n + 1) i hi
      have heq : n + (i + 1) = (n + 1) + i := by omega
      rw [show List.enumFrom n (a :: l) = (n, a) :: List.enumFrom (n + 1) l
        from rfl]
      refine List.mem_cons_of_mem _ ?_
      rw [heq]
      exact hmem

theorem snd_mem_of_mem_enumFrom {α : Type _} :
    ∀ (l : List α) (n : Nat) (p : Nat × α),
      p ∈ List.enumFrom n l → p.2 ∈ l := by
  intro l
  induction l with
  | nil => intro n p h; simp [List.enumFrom] at h
  | cons a l ih =>
    intro n p h
    rw [show List.enumFrom n (a :: l) = (n, a) :: List.enumFrom (n + 1) l
      from rfl] at h
    rcases List.mem_cons.mp h with rfl | h2
    · exact List.mem_cons_self a l
    · exact List.mem_cons_of_mem a (ih (n + 1) p h2)

/-! ## General lemmas about the dedup and sort passes -/

theorem dedupByNoAux_spec :
    ∀ (l : List Category) (seen : List Nat),
      ((dedupByNoAux seen l).map Category.no).Nodup ∧
      (∀ c ∈ dedupByNoAux seen l, c.no ∉ seen) := by
  intro l
  induction l with
  | nil => intro seen; simp [dedupByNoAux]
  | cons c l ih =>
    intro seen
    by_cases h : c.no ∈ seen
    · rw [show dedupByNoAux seen (c :: l) = dedupByNoAux seen l by
        simp [dedupByNoAux, h]]
      exact ih seen
    · rw [show dedupByNoAux seen (c :: l) =
        c :: dedupByNoAux (c.no :: seen) l by simp [dedupByNoAux, h]]
      obtain ⟨ihn, ihs⟩ := ih (c.no :: seen)
      constructor
      · rw [List.map_cons, List.nodup_cons]
        refine ⟨?_, ihn⟩
        intro hmem
        obtain ⟨d, hd, he⟩ := List.mem_map.mp hmem
        exact ihs d hd (he ▸ List.mem_cons_self c.no seen)
      · intro d hd
        rcases List.mem_cons.mp hd with rfl | hd2
        · exact h
        · exact fun hmem => ihs d hd2 (List.mem_cons_of_mem _ hmem)

theorem dedupByNo_nodup (l : List Category) :
    ((dedupByNo l).map Category.no).Nodup :=
  (dedupByNoAux_spec l []).1

theorem sortCatsByNo_perm (l : List Category) :
    (sortCatsByNo l).Perm l :=
  List.perm_insertionSort _ l

theorem sortCatsByNo_sorted (l : List Category) :
    List.Sorted (· ≤ ·) ((sortCatsByNo l).map Category.no) := by
  haveI : IsTotal Category (fun a b => a.no ≤ b.no) :=
    ⟨fun a b => Nat.le_total a.no b.no⟩
  haveI : IsTrans Category (fun a b => a.no ≤ b.no) :=
    ⟨fun _ _ _ hab hbc => Nat.le_trans hab hbc⟩
  have hs := List.sorted_insertionSort (fun a b : Category => a.no ≤ b.no) l
  exact List.Pairwise.map Category.no (fun _ _ hab => hab) hs

/-! ## General lemmas about the page-level flush -/

theorem pageStep_flush (st : PdfState) (page : PdfPage) (c : Category)
    (h : (pageStep st page).2 = some c) :
    c ∈ (pageStep st page).1 := by
  rcases hfold : page.foldl tableStep st with ⟨cats1, cur1⟩
  simp only [pageStep, hfold] at h ⊢
  cases cur1 with
  | none =>
    dsimp only at h
    exact absurd h (by simp)
  | some cur =>
    dsimp only at h ⊢
    by_cases hmem : cur ∉ cats1
    · rw [if_pos hmem] at h
      exact absurd h (by simp)
    · rw [if_neg hmem] at h ⊢
      rw [not_not] at hmem
      dsimp only at h
      rw [Option.some.injEq] at h
      exact h ▸ hmem

/-! ## General lemmas about the TOC target selection -/

theorem tocFold_inv :
    ∀ (l processed : List (Nat × TocShape)) (acc : Option Nat × Nat),
      (∀ p ∈ processed, eligibleShape p.2 = true →
        shapeArea p.2 ≤ acc.2) →
      (∀ i, acc.1 = some i →
        ∃ s, (i, s) ∈ processed ∧ eligibleShape s = true ∧
          shapeArea s = acc.2) →
      (∀ p ∈ processed ++ l, eligibleShape p.2 = true →
        shapeArea p.2 ≤ (l.foldl tocStep acc).2) ∧
      (∀ i, (l.foldl tocStep acc).1 = some i →
        ∃ s, (i, s) ∈ processed ++ l ∧ eligibleShape s = true ∧
          shapeArea s = (l.foldl tocStep acc).2) := by
  intro l
  induction l with
  | nil =>
    intro processed acc h1 h2
    constructor
    · intro p hp he
      exact h1 p (by simpa using hp) he
    · intro i hi
      obtain ⟨s, hs, he, ha⟩ := h2 i hi
      exact ⟨s, by simpa using hs, he, ha⟩
  | cons p l ih =>
    intro processed acc h1 h2
    rw [List.foldl_cons]
    have hstep := ih (processed ++ [p]) (tocStep acc p) ?_ ?_
    · constructor
      · intro q hq he
        refine hstep.1 q ?_ he
        rw [List.append_assoc, List.singleton_append]
        exact hq
      · intro i hi
        obtain ⟨s, hs, he, ha⟩ := hstep.2 i hi
        refine ⟨s, ?_, he, ha⟩
        rw [List.append_assoc, List.singleton_append] at hs
        exact hs
    · -- every processed shape (including p) is bounded by the new max
      intro q hq he
      by_cases htf : p.2.hasTextFrame
      · by_cases hcond : 10 < (pyStrip p.2.text).length ∧ acc.2 < shapeArea p.2
        · rw [show tocStep acc p = (some p.1, shapeArea p.2) by
            simp [tocStep, htf, hcond]]
          rcases List.mem_append.mp hq with hq1 | hq2
          · exact Nat.le_of_lt (Nat.lt_of_le_of_lt (h1 q hq1 he) hcond.2)
          · rw [List.mem_singleton] at hq2
            subst hq2
            exact Nat.le_refl _
        · rw [show tocStep acc p = acc by simp [tocStep, htf, hcond]]
          rcases List.mem_append.mp hq with hq1 | hq2
          · exact h1 q hq1 he
          · rw [List.mem_singleton] at hq2
            subst hq2
            have h10 : 10 < (pyStrip q.2.text).length := by
              simp [eligibleShape] at he
              exact he.2
            rcases Nat.lt_or_ge acc.2 (shapeArea q.2) with hlt | hge
            · exact absurd ⟨h10, hlt⟩ hcond
            · exact hge
      · rw [show tocStep acc p = acc by simp [tocStep, htf]]
        rcases List.mem_append.mp hq with hq1 | hq2
        · exact h1 q hq1 he
        · rw [List.mem_singleton] at hq2
          subst hq2
          simp [eligibleShape] at he
          exact absurd he.1 htf
    · -- the new target, if any, is a processed eligible shape of max area
      intro i hi
      by_cases htf : p.2.hasTextFrame
      · by_cases hcond : 10 < (pyStrip p.2.text).length ∧ acc.2 < shapeArea p.2
        · rw [show tocStep acc p = (some p.1, shapeArea p.2) by
            simp [tocStep, htf, hcond]] at hi ⊢
          rw [Option.some.injEq] at hi
          refine ⟨p.2, ?_, ?_, rfl⟩
          · rw [← hi]
            exact List.mem_append_right _ (by simp)
          · simp [eligibleShape, htf, hcond.1]
        · rw [show tocStep acc p = acc by simp [tocStep, htf, hcond]] at hi ⊢
          obtain ⟨s, hs, he, ha⟩ := h2 i hi
          exact ⟨s, List.mem_append_left _ hs, he, ha⟩
      · rw [show tocStep acc p = acc by simp [tocStep, htf]] at hi ⊢
        obtain ⟨s, hs, he, ha⟩ := h2 i hi
        exact ⟨s, List.mem_append_left _ hs, he, ha⟩

theorem selectTocTarget_spec (shapes : List TocShape) (i : Nat)
    (h : (selectTocTarget shapes).1 = some i) :
    ∃ s, (i, s) ∈ shapes.enum ∧ eligibleShape s = true ∧
      ∀ p ∈ shapes.enum, eligibleShape p.2 = true →
        shapeArea p.2 ≤ shapeArea s := by
  have hinv := tocFold_inv shapes.enum [] (none, 0)
    (by simp) (by simp)
  obtain ⟨s, hs, he, ha⟩ := hinv.2 i (by
    rw [show shapes.enum.foldl tocStep (none, 0) = selectTocTarget shapes
      from rfl]
    exact h)
  refine ⟨s, by simpa using hs, he, ?_⟩
  intro p hp hep
  have hb := hinv.1 p (by simpa using hp) hep
  rw [show shapes.enum.foldl tocStep (none, 0) = selectTocTarget shapes
    from rfl] at hb ha
  rw [ha]
  exact hb

/-! ## General lemmas about the computed new order -/

theorem contentOrder_sub (deck : List Slide) (cats : List Category)
    (mapping : List (Nat × Nat)) :
    ∀ x ∈ contentOrderOf deck cats mapping,
      x ∈ List.range' FIXED_SLIDES (deck.length - FIXED_SLIDES) := by
  intro x hx
  rw [← getGroups_flatten]
  simp only [contentOrderOf] at hx
  rcases List.mem_append.mp hx with hx1 | hx2
  · obtain ⟨l, hl, hxl⟩ := List.mem_flatten.mp hx1
    obtain ⟨m, hm, rfl⟩ := List.mem_map.mp hl
    have hm2 : m ∈ (buildMatched cats mapping (getGroups deck)).1 :=
      (List.perm_insertionSort _ _).mem_iff.mp hm
    obtain ⟨i, hi, hgi⟩ :=
      buildMatched_entries cats mapping (getGroups deck) m hm2
    have hgmem : m.2.2 ∈ getGroups deck := by
      rw [hgi, List.getD_eq_get _ _ hi]
      exact List.get_mem _ _ _
    exact List.mem_flatten.mpr
      ⟨m.2.2.slides, List.mem_map.mpr ⟨m.2.2, hgmem, rfl⟩, hxl⟩
  · obtain ⟨l, hl, hxl⟩ := List.mem_flatten.mp hx2
    obtain ⟨g, hg, rfl⟩ := List.mem_map.mp hl
    simp only [unusedGroupsOf] at hg
    obtain ⟨p, hp, rfl⟩ := List.mem_map.mp hg
    have hpmem : p ∈ (getGroups deck).enum := (List.mem_filter.mp hp).1
    have hpg : p.2 ∈ getGroups deck := snd_mem_of_mem_enumFrom _ 0 p hpmem
    exact List.mem_flatten.mpr
      ⟨p.2.slides, List.mem_map.mpr ⟨p.2, hpg, rfl⟩, hxl⟩

theorem contentOrder_sup (deck : List Slide) (cats : List Category)
    (mapping : List (Nat × Nat)) :
    ∀ x ∈ List.range' FIXED_SLIDES (deck.length - FIXED_SLIDES),
      x ∈ contentOrderOf deck cats mapping := by
  intro x hx
  rw [← getGroups_flatten] at hx
  obtain ⟨l, hl, hxl⟩ := List.mem_flatten.mp hx
  obtain ⟨g, hg, rfl⟩ := List.mem_map.mp hl
  obtain ⟨⟨i, hi⟩, hget⟩ := List.mem_iff_get.mp hg
  simp only [contentOrderOf]
  rw [List.mem_append]
  by_cases hu : i ∈ (buildMatched cats mapping (getGroups deck)).2
  · left
    obtain ⟨e, he2, hee⟩ := buildMatched_used cats mapping (getGroups deck) i hu
    apply List.mem_flatten.mpr
    refine ⟨e.2.2.slides, List.mem_map.mpr ⟨e, ?_, rfl⟩, ?_⟩
    · exact (List.perm_insertionSort _ _).mem_iff.mpr he2
    · rw [hee, List.getD_eq_get _ _ hi, hget]
      exact hxl
  · right
    apply List.mem_flatten.mpr
    refine ⟨g.slides, List.mem_map.mpr ⟨g, ?_, rfl⟩, hxl⟩
    simp only [unusedGroupsOf]
    apply List.mem_map.mpr
    refine ⟨(i, g), ?_, rfl⟩
    apply List.mem_filter.mpr
    constructor
    · have hmem := get_mem_enumFrom (getGroups deck) 0 i hi
      rw [hget] at hmem
      simpa using hmem
    · simpa using hu

theorem mem_newOrderOf (deck : List Slide) (cats : List Category)
    (mapping : List (Nat × Nat)) (h : FIXED_SLIDES < deck.length) :
    ∀ x, x ∈ newOrderOf deck cats mapping ↔ x < deck.length := by
  intro x
  rw [newOrderOf, List.mem_append]
  constructor
  · rintro (hx | hx)
    · rw [List.mem_range] at hx
      omega
    · have hb := contentOrder_sub deck cats mapping x hx
      rw [List.mem_range'_1] at hb
      omega
  · intro hx
    by_cases hxk : x < FIXED_SLIDES
    · exact Or.inl (List.mem_range.mpr hxk)
    · refine Or.inr (contentOrder_sup deck cats mapping x ?_)
      rw [List.mem_range'_1]
      omega

/-! ## Claims -/

/-- C1: for every deck with more than `FIXED_SLIDES` slides and every
validated mapping (including mappings in which two different categories
map to the same group index), `process_pptx` produces a final slide
order that is a permutation of the original order of the same length,
with every original slide index appearing exactly once, and positions
`[0, FIXED_SLIDES)` unchanged.  The hypotheses of the claim are carried
by the success of `processPptx`, which returns `some` exactly when the
deck is long enough and the mapping non-empty. -/
theorem processPptx_order_permutation (deck : List Slide)
    (cats : List Category) (mapping : List (Nat × Nat))
    (res : ProcessResult)
    (hres : processPptx deck cats mapping = some res) :
    res.order.Perm (List.range deck.length) ∧
    res.order.length = deck.length ∧
    res.order.take FIXED_SLIDES = List.range FIXED_SLIDES := by
  have hk : FIXED_SLIDES < deck.length := by
    by_contra hle
    rw [processPptx, if_pos (by omega)] at hres
    exact Option.noConfusion hres
  have hres2 : res = reorderCore deck cats mapping := by
    rw [processPptx, if_neg (by omega)] at hres
    by_cases hm : mapping = []
    · rw [if_pos hm] at hres
      exact Option.noConfusion hres
    · rw [if_neg hm] at hres
      exact (Option.some.inj hres).symm
  subst hres2
  have horder : (reorderCore deck cats mapping).order =
      applySlideOrder (newOrderOf deck cats mapping) := rfl
  rw [horder]
  have hmemFinal : ∀ x, x ∈ applySlideOrder (newOrderOf deck cats mapping) ↔
      x ∈ newOrderOf deck cats mapping := by
    intro x
    unfold applySlideOrder
    rw [mem_foldl_slideMove]
    simp
  have hnodup : (applySlideOrder (newOrderOf deck cats mapping)).Nodup :=
    nodup_foldl_slideMove _ [] List.nodup_nil
  have hperm : (applySlideOrder (newOrderOf deck cats mapping)).Perm
      (List.range deck.length) := by
    apply List.Subperm.antisymm
    · apply hnodup.subperm
      intro x hx
      rw [List.mem_range]
      exact (mem_newOrderOf deck cats mapping hk x).mp ((hmemFinal x).mp hx)
    · apply (List.nodup_range _).subperm
      intro x hx
      exact (hmemFinal x).mpr
        ((mem_newOrderOf deck cats mapping hk x).mpr (List.mem_range.mp hx))
  refine ⟨hperm, by rw [hperm.length_eq, List.length_range], ?_⟩
  have hanch : applySlideOrder (newOrderOf deck cats mapping) =
      List.range FIXED_SLIDES ++
        applySlideOrder (contentOrderOf deck cats mapping) := by
    rw [show newOrderOf deck cats mapping =
      List.range FIXED_SLIDES ++ contentOrderOf deck cats mapping from rfl]
    apply applySlideOrder_anchors
    intro x hx
    have hb := contentOrder_sub deck cats mapping x hx
    rw [List.mem_range'_1] at hb
    rw [List.mem_range]
    omega
  rw [hanch]
  calc (List.range FIXED_SLIDES ++
          applySlideOrder (contentOrderOf deck cats mapping)).take FIXED_SLIDES
      = (List.range FIXED_SLIDES ++
          applySlideOrder (contentOrderOf deck cats mapping)).take
            (List.range FIXED_SLIDES).length := by rw [List.length_range]
    _ = List.range FIXED_SLIDES := List.take_left _ _

/-- C1 witness: the theorem applied to a concrete deck of 4 slides and
the duplicate-target mapping sending both categories to group 0 (the
very case the claim singles out); the computed order repeats the slides
of group 0, and the lxml-level rewrite still yields a permutation. -/
theorem processPptx_order_permutation_witness :
    (reorderCore deckFour catsTwo [(1, 0), (2, 0)]).order.Perm
      (List.range deckFour.length) ∧
    (reorderCore deckFour catsTwo [(1, 0), (2, 0)]).order.length =
      deckFour.length ∧
    (reorderCore deckFour catsTwo [(1, 0), (2, 0)]).order.take FIXED_SLIDES =
      List.range FIXED_SLIDES :=
  processPptx_order_permutation deckFour catsTwo [(1, 0), (2, 0)]
    (reorderCore deckFour catsTwo [(1, 0), (2, 0)]) (by decide)

/-- C3: for every deck whose length exceeds `FIXED_SLIDES`, the groups
produced by the segmentation pass, with their `slides` concatenated in
group order, cover exactly the index range
`[FIXED_SLIDES, deck.length)` in ascending order with no gaps and no
repeats (`List.range'` is that range). -/
theorem segmentation_partition (deck : List Slide)
    (_h : FIXED_SLIDES < deck.length) :
    ((getGroups deck).map Group.slides).flatten =
      List.range' FIXED_SLIDES (deck.length - FIXED_SLIDES) :=
  getGroups_flatten deck

/-- C3 witness: the partition at the concrete 4-slide deck. -/
theorem segmentation_partition_witness :
    FIXED_SLIDES < deckFour.length ∧
    ((getGroups deckFour).map Group.slides).flatten =
      List.range' FIXED_SLIDES (deckFour.length - FIXED_SLIDES) :=
  ⟨by decide, segmentation_partition deckFour (by decide)⟩

/-- C2 counterexample: on the Scenario A table the extraction does NOT
return `[{No:1, MainCategory:"Intro", SubItems:["Scope"]}, {No:2, ...}]`
as claimed.  The middle row `["1","1","Scope"]` has only 3 cells, so the
sub-item check (which reads cells 3 and 4 and requires at least 4
cells) never fires; instead the row is recognised as a main-item row. -/
theorem scenario_a_counterexample :
    extractCategoriesFromPdf docC2 ≠
      [⟨1, "Intro", ["Scope"]⟩, ⟨2, "Overview", []⟩] := by
  decide

/-- C2 amended: on the Scenario A table the middle row `["1","1","Scope"]`
is recognised as another main-item row (second cell `"1"` becomes the
`MainCategory` of a duplicate category No 1, which the final
first-occurrence dedup removes); `"Scope"` is not attached, and the
extraction returns the two categories with empty `SubItems`. -/
theorem scenario_a_extraction :
    extractCategoriesFromPdf docC2 =
      [⟨1, "Intro", []⟩, ⟨2, "Overview", []⟩] := by
  decide

/-- C4: entries of the oracle mapping with a negative group index are
dropped by `create_matching_with_ai`; an entry whose group index is
merely out of `[0, len(groups))` survives into the mapping and is then
dropped silently by the matching loop of `process_pptx`: for the
response `{"1": 5}` over the 2-group deck, the pipeline still returns a
result, with `matchedCount = 0` (and all groups unused). -/
theorem oracle_invalid_entries_dropped :
    (∀ (raw1 raw2 : List (Nat × Int)) (k : Nat) (v : Int), v < 0 →
      createMatchingWithAI (some (raw1 ++ (k, v) :: raw2)) =
        createMatchingWithAI (some (raw1 ++ raw2))) ∧
    createMatchingWithAI (some [(1, 5)]) = [(1, 5)] ∧
    processPptx deckFour catsTwo [(1, 5)] =
      some ⟨[0, 1, 2, 3], deckFour, 0, 2⟩ := by
  refine ⟨?_, by decide, by decide⟩
  intro raw1 raw2 k v hv
  simp only [createMatchingWithAI]
  rw [List.foldl_append, List.foldl_append, List.foldl_cons]
  dsimp only
  rw [if_neg (by omega)]

/-- C4 witness: the drop of a concrete negative entry. -/
theorem oracle_invalid_entries_dropped_witness :
    createMatchingWithAI (some ([(2, 3)] ++ (1, -1) :: [])) =
      createMatchingWithAI (some ([(2, 3)] ++ [])) :=
  oracle_invalid_entries_dropped.1 [(2, 3)] [] 1 (-1) (by decide)

/-- C5 counterexample: when the oracle matching response is
unparseable, `create_matching_with_ai` does return the empty mapping,
but `process_pptx` then hits `if not mapping: return` and ABORTS with
no output file (`none`), instead of degrading to a zero-match reorder
that still produces an output, as the claim states. -/
theorem unparseable_response_counterexample :
    createMatchingWithAI none = [] ∧
    processPptx deckFour catsTwo (createMatchingWithAI none) = none :=
  ⟨rfl, by decide⟩

/-- C5 amended: for every unparseable oracle matching response, the
matching component yields an empty mapping as a recoverable error, and
`process_pptx` then returns early with no output (for every deck and
taxonomy), rather than crashing. -/
theorem unparseable_response_aborts (deck : List Slide)
    (cats : List Category) :
    createMatchingWithAI none = [] ∧
    processPptx deck cats [] = none := by
  refine ⟨rfl, ?_⟩
  rw [processPptx]
  by_cases h : deck.length ≤ FIXED_SLIDES
  · rw [if_pos h]
  · rw [if_neg h, if_pos rfl]

/-- C6 counterexample: the oracle-delegated extraction path does NOT
deduplicate by `No`: a parsed response with two categories numbered 1
is returned with both entries, so the taxonomy of that path can contain
two categories with the same `No`. -/
theorem ai_extraction_keeps_duplicate_no :
    ¬ (((extractCategoriesWithAI
          (some [⟨1, "A"⟩, ⟨1, "B"⟩])).map AICat.no).Nodup) := by
  decide

/-- C6 amended: the tabular extraction path deduplicates by `No` (first
occurrence wins) and sorts ascending by `No`; the oracle-delegated path
only sorts ascending by `No` and keeps duplicate numbers. -/
theorem extraction_no_ordering :
    (∀ doc : PdfDoc,
        ((extractCategoriesFromPdf doc).map Category.no).Nodup ∧
        List.Sorted (· ≤ ·) ((extractCategoriesFromPdf doc).map Category.no)) ∧
    (∀ cats : List AICat,
        List.Sorted (· ≤ ·)
          ((extractCategoriesWithAI (some cats)).map AICat.no)) := by
  constructor
  · intro doc
    constructor
    · have hperm :=
        (sortCatsByNo_perm
          (dedupByNo (doc.foldl pageStep ([], none)).1)).map Category.no
      exact hperm.nodup_iff.mpr (dedupByNo_nodup _)
    · exact sortCatsByNo_sorted _
  · intro cats
    haveI : IsTotal AICat (fun a b => a.no ≤ b.no) :=
      ⟨fun a b => Nat.le_total a.no b.no⟩
    haveI : IsTrans AICat (fun a b => a.no ≤ b.no) :=
      ⟨fun _ _ _ hab hbc => Nat.le_trans hab hbc⟩
    have hs := List.sorted_insertionSort (fun a b : AICat => a.no ≤ b.no) cats
    exact List.Pairwise.map AICat.no (fun _ _ hab => hab) hs

/-- C7 counterexample: a sub-item row in a LATER TABLE on the same page
as its category's main-item row IS attached to that category — the
in-progress category is not flushed between tables, so `"Scope"` lands
in category 1, contradicting the claim. -/
theorem flush_per_table_counterexample :
    extractCategoriesFromPdf docSamePage = [⟨1, "Intro", ["Scope"]⟩] := by
  decide

/-- C7 amended: the in-progress category is flushed at the end of each
PAGE (after each page either it has been appended to the result or it
was already present there), not at the end of each table; consequently
a sub-item row in a later table on the same page is attached to its
category, while in the corresponding two-page layout it is not. -/
theorem flush_at_page_end :
    (∀ (st : PdfState) (page : PdfPage) (c : Category),
        (pageStep st page).2 = some c → c ∈ (pageStep st page).1) ∧
    extractCategoriesFromPdf docSamePage = [⟨1, "Intro", ["Scope"]⟩] ∧
    extractCategoriesFromPdf docLaterPage = [⟨1, "Intro", []⟩] :=
  ⟨pageStep_flush, by decide, by decide⟩

/-- C7 witness: the flush statement at a concrete page whose end-of-page
state still carries an in-progress category (the duplicate-flush edge
where it is already in the result). -/
theorem flush_at_page_end_witness :
    (⟨1, "Intro", []⟩ : Category) ∈
      (pageStep ([⟨1, "Intro", []⟩], none) [tMainIntro]).1 :=
  flush_at_page_end.1 ([⟨1, "Intro", []⟩], none) [tMainIntro]
    ⟨1, "Intro", []⟩ (by decide)

/-- C8 counterexample: eligibility of a TOC text frame is `len(text) >
10`, not "not only digits/whitespace" as claimed: a frame whose text
`"Contents"` is clearly not digits/whitespace (so the claim says it is
selected and rewritten) is rejected by the code, which selects no frame
and skips the update. -/
theorem toc_eligibility_counterexample :
    specTextEligible "Contents" = true ∧
    selectTocTarget [⟨true, 100, 100, "Contents"⟩] = (none, 0) ∧
    populateToc [⟨true, 100, 100, "Contents"⟩] [⟨1, "Intro", []⟩] = none :=
  ⟨by decide, by decide, by decide⟩

/-- C8 amended: the TOC update selects the text frame of greatest
bounding area among those whose existing stripped text is LONGER THAN
10 CHARACTERS (rather than "not only digits/whitespace"); when a frame
is selected it is rewritten with one paragraph per category followed by
up to 3 indented sub-item lines; when no frame qualifies the update is
skipped (`none`), non-fatally. -/
theorem toc_update :
    (∀ (shapes : List TocShape) (i : Nat),
        (selectTocTarget shapes).1 = some i →
        ∃ s, (i, s) ∈ shapes.enum ∧ eligibleShape s = true ∧
          ∀ p ∈ shapes.enum, eligibleShape p.2 = true →
            shapeArea p.2 ≤ shapeArea s) ∧
    (∀ (shapes : List TocShape) (cats : List Category),
        (selectTocTarget shapes).1 = none → populateToc shapes cats = none) ∧
    populateToc [⟨true, 2, 2, "Long enough text"⟩]
        [⟨1, "Intro", ["a", "b", "c", "d"]⟩] =
      some (0, ["1. Intro", "  ・ a", "  ・ b", "  ・ c"]) := by
  refine ⟨fun shapes i h => selectTocTarget_spec shapes i h, ?_, by decide⟩
  intro shapes cats h
  simp only [populateToc, h]

/-- C8 witness: the selection statement at a concrete one-frame slide. -/
theorem toc_update_witness :
    ∃ s, (0, s) ∈ ([⟨true, 2, 2, "Long enough text"⟩] : List TocShape).enum ∧
      eligibleShape s = true ∧
      ∀ p ∈ ([⟨true, 2, 2, "Long enough text"⟩] : List TocShape).enum,
        eligibleShape p.2 = true → shapeArea p.2 ≤ shapeArea s :=
  toc_update.1 [⟨true, 2, 2, "Long enough text"⟩] 0 (by decide)

/-- C9: Scenario C — the validated mapping `{1: 0}` (entry `2: -1`
dropped by validation) over the 2-group deck yields
`matched_list = [(1, "Intro", group0)]`, `unused_groups = [group1]`,
the final order anchors ++ group0 ++ group1, the first slide of group 0
retitled `"1. Intro"`, and `matchedCount = 1`, `unusedCount = 1`; a
title update on a slide without a title placeholder is non-fatal and
leaves the slide unmodified. -/
theorem scenario_c_reorder :
    createMatchingWithAI (some [(1, 0), (2, -1)]) = [(1, 0)] ∧
    processPptx deckFour catsTwo [(1, 0)] =
      some ⟨[0, 1, 2, 3], deckFourTitled, 1, 1⟩ ∧
    (∀ (s : Slide) (t : String), s.titleShape = none →
      updateSlideTitle s t = (s, false)) := by
  refine ⟨by decide, by decide, ?_⟩
  intro s t h
  rcases s with ⟨ts, bt⟩
  dsimp only at h
  subst h
  rfl

/-- C9 witness: the non-fatal title update at a concrete slide without
a title placeholder. -/
theorem scenario_c_reorder_witness :
    updateSlideTitle ⟨none, ["body"]⟩ "1. Intro" = (⟨none, ["body"]⟩, false) :=
  scenario_c_reorder.2.2 ⟨none, ["body"]⟩ "1. Intro" rfl

/-- C10: a table with fewer than 2 rows is skipped before any row is
examined (the state is returned unchanged), so a well-formed main-item
row that is the only row of its table contributes nothing, and a
well-formed sub-item row that is the only row of its table does not
attach to the in-progress category either. -/
theorem short_table_skipped :
    (∀ (st : PdfState) (t : Table), t.length < 2 → tableStep st t = st) ∧
    extractCategoriesFromPdf docSingleRowTable = [] ∧
    extractCategoriesFromPdf docSingleRowSubTable = [⟨1, "Intro", []⟩] := by
  refine ⟨?_, by decide, by decide⟩
  intro st t h
  rw [tableStep, if_pos h]

/-- C10 witness: the skip at a concrete single-row table. -/
theorem short_table_skipped_witness :
    tableStep ([], none) [[some "1", some "Intro"]] = ([], none) :=
  short_table_skipped.1 ([], none) [[some "1", some "Intro"]] (by decide)

end PptxOrganizer
